import Mathlib

/-!
Verification of the dependency-listing tool `Konfigur2.py` against its
design specification.

The development shallowly embeds the pure logic of the program:
* configuration validation (`validate_config`, source lines 19-42),
* the top-level dispatch of `main` after a successful validation
  (source lines 110-133),
* the query-URL construction of `fetch_package_dependencies`
  (source lines 51-57), modelled at the byte level,
* the XML `Dependencies` extraction (source lines 71-79),
* the pipe/colon mini-language decoder (source lines 82-96).

The network transport and file I/O are external effects and are not part of
the embedding; the functions below model the computation on their inputs.
-/

namespace Konfigur2

/-! ## Python values and configuration objects

A configuration is a JSON object: a finite map from string keys to values.
We model the value universe needed by `validate_config`: strings, integers,
booleans and a catch-all for other JSON values.  An association list with
first-match lookup models the dict (keys of a parsed JSON object are
unique). -/

inductive PyVal where
  | str (s : String)
  | int (n : Int)
  | bool (b : Bool)
  | other
deriving DecidableEq

abbrev Config := List (String × PyVal)

def lookup : Config → String → Option PyVal
  | [], _ => Option.none
  | (k, v) :: rest, key => if k = key then some v else lookup rest key

/-- The two expected types occurring in `required_keys` (source lines 21-28). -/
inductive PyType where
  | str
  | int
deriving DecidableEq

/-- Python `isinstance(v, t)`.  Note that `bool` is a subclass of `int` in
Python, so a boolean passes an `isinstance(v, int)` check. -/
def isinstance : PyVal → PyType → Bool
  | .str _, .str => true
  | .int _, .int => true
  | .bool _, .int => true
  | _, _ => false

/-- The table `required_keys` of `validate_config`, in source insertion
order (source lines 21-28). -/
def requiredKeys : List (String × PyType) :=
  [("package_name", .str),
   ("repository_url", .str),
   ("repo_mode", .str),
   ("output_file", .str),
   ("max_depth", .int),
   ("filter_substring", .str)]

/-- Error kinds raised by `validate_config`: `KeyError` for a missing key,
`TypeError` for a wrongly typed value (the schema kind), `ValueError` for a
violated constraint. -/
inductive ValErr where
  | keyError (k : String)
  | typeError (k : String)
  | valueError (msg : String)
deriving DecidableEq

instance : DecidableEq (Except ValErr Unit) := fun a b =>
  match a, b with
  | .ok (), .ok () => isTrue rfl
  | .error e, .error e2 => if h : e = e2 then isTrue (by rw [h]) else isFalse (by simp [h])
  | .ok _, .error _ => isFalse (by simp)
  | .error _, .ok _ => isFalse (by simp)

/-- The `for key, expected_type in required_keys.items()` loop of
`validate_config` (source lines 30-37). -/
def checkRequired (config : Config) : List (String × PyType) → Except ValErr Unit
  | [] => .ok ()
  | (k, ty) :: rest =>
    match lookup config k with
    | Option.none => .error (.keyError k)
    | some v =>
      if isinstance v ty then checkRequired config rest else .error (.typeError k)

/-- The integer value Python compares in `config["max_depth"] < 0`
(a `bool` compares as 0 or 1). -/
def intValue : PyVal → Int
  | .int n => n
  | .bool b => if b then 1 else 0
  | _ => 0

/-- The `config["max_depth"] < 0` check (source lines 39-40).  The missing-key
branch is unreachable when called after `checkRequired`. -/
def checkMaxDepth (config : Config) : Except ValErr Unit :=
  match lookup config "max_depth" with
  | some v =>
    if intValue v < 0 then .error (.valueError "max_depth не может быть отрицательным")
    else .ok ()
  | Option.none => .ok ()

/-- Python `config["repo_mode"] in ("remote", "local")`. -/
def modeAllowed (v : PyVal) : Bool :=
  v = .str "remote" || v = .str "local"

/-- The `config["repo_mode"] not in ("remote", "local")` check (source
lines 41-42).  The missing-key branch is unreachable after `checkRequired`. -/
def checkRepoMode (config : Config) : Except ValErr Unit :=
  match lookup config "repo_mode" with
  | some v =>
    if modeAllowed v then .ok ()
    else .error (.valueError "repo_mode должен быть remote или local")
  | Option.none => .ok ()

/-- Function `validate_config` (source lines 19-42): the key/type loop, then the
`max_depth` constraint, then the `repo_mode` constraint, failing at the
first violated check. -/
def validate_config (config : Config) : Except ValErr Unit :=
  match checkRequired config requiredKeys with
  | .error e => .error e
  | .ok _ =>
    match checkMaxDepth config with
    | .error e => .error e
    | .ok _ => checkRepoMode config

/-! ## The dispatch of `main` after loading the configuration

`main` (source lines 110-133) validates, then in remote mode reads
`package_name`, `package_version`, `repository_url` and calls the fetch; in
any other mode it raises `NotImplementedError`.  A `KeyError` from a missing
dict key is caught by the `(FileNotFoundError, ValueError, KeyError,
TypeError)` handler — the configuration-error path, exit code 1 — while
`NotImplementedError` reaches the generic handler, exit code 2.  We model
the outcome up to the network call. -/

inductive MainOutcome where
  | configError
  | unsupportedModeError
  | fetchAttempt (name version baseUrl : PyVal)
deriving DecidableEq

def mainDispatch (config : Config) : MainOutcome :=
  match validate_config config with
  | .error _ => .configError
  | .ok _ =>
    match lookup config "repo_mode" with
    | some v =>
      if v = .str "remote" then
        match lookup config "package_name", lookup config "package_version",
              lookup config "repository_url" with
        | some n, some ver, some u => .fetchAttempt n ver u
        | _, _, _ => .configError
      else .unsupportedModeError
    | Option.none => .configError

/-! ## Specification-side characterisations used by the claims -/

/-- Key `k` is present with a value of type `ty` (Python semantics). -/
def keyOK (config : Config) (k : String) (ty : PyType) : Bool :=
  match lookup config k with
  | some v => isinstance v ty
  | Option.none => false

/-- All six required keys are present and correctly typed. -/
def schemaOK (config : Config) : Bool :=
  requiredKeys.all (fun p => keyOK config p.1 p.2)

/-- Field `max_depth` is non-negative (when present). -/
def maxDepthOK (config : Config) : Bool :=
  match lookup config "max_depth" with
  | some v => decide (0 ≤ intValue v)
  | Option.none => true

/-- Field `repo_mode` lies in the enumerated set (when present). -/
def repoModeOK (config : Config) : Bool :=
  match lookup config "repo_mode" with
  | some v => modeAllowed v
  | Option.none => true

/-! ## Lemmas about `checkRequired` -/

theorem checkRequired_ok_iff (config : Config) (l : List (String × PyType)) :
    checkRequired config l = .ok () ↔ l.all (fun p => keyOK config p.1 p.2) = true := by
  induction l with
  | nil => simp [checkRequired]
  | cons p rest ih =>
    obtain ⟨k, ty⟩ := p
    simp only [checkRequired, List.all_cons, Bool.and_eq_true]
    cases h : lookup config k with
    | none => simp [keyOK, h]
    | some v =>
      by_cases hty : isinstance v ty
      · simp [keyOK, h, hty, ih]
      · simp [keyOK, h, hty]

theorem checkRequired_fails (config : Config) (l : List (String × PyType))
    (h : l.all (fun p => keyOK config p.1 p.2) = false) :
    ∃ k, checkRequired config l = .error (.keyError k) ∨
         checkRequired config l = .error (.typeError k) := by
  induction l with
  | nil => simp at h
  | cons p rest ih =>
    obtain ⟨k, ty⟩ := p
    simp only [List.all_cons, Bool.and_eq_false_iff] at h
    cases hl : lookup config k with
    | none => exact ⟨k, Or.inl (by simp [checkRequired, hl])⟩
    | some v =>
      by_cases hty : isinstance v ty
      · have hrest : rest.all (fun p => keyOK config p.1 p.2) = false := by
          rcases h with h | h
          · simp [keyOK, hl, hty] at h
          · exact h
        obtain ⟨k', hk'⟩ := ih hrest
        refine ⟨k', ?_⟩
        simpa [checkRequired, hl, hty] using hk'
      · exact ⟨k, Or.inr (by simp [checkRequired, hl, hty])⟩

theorem checkMaxDepth_spec (config : Config) :
    checkMaxDepth config =
      if maxDepthOK config then .ok ()
      else .error (.valueError "max_depth не может быть отрицательным") := by
  unfold checkMaxDepth maxDepthOK
  cases lookup config "max_depth" with
  | none => simp
  | some v =>
    by_cases h : intValue v < 0
    · have h2 : ¬ (0 ≤ intValue v) := by omega
      simp [h, h2]
    · have h2 : 0 ≤ intValue v := by omega
      simp [h, h2]

theorem checkRepoMode_spec (config : Config) :
    checkRepoMode config =
      if repoModeOK config then .ok ()
      else .error (.valueError "repo_mode должен быть remote или local") := by
  unfold checkRepoMode repoModeOK
  cases lookup config "repo_mode" with
  | none => simp
  | some v => by_cases h : modeAllowed v <;> simp [h]

theorem validate_config_of_schemaOK (config : Config) (hs : schemaOK config = true) :
    validate_config config =
      if maxDepthOK config then
        (if repoModeOK config then .ok ()
         else .error (.valueError "repo_mode должен быть remote или local"))
      else .error (.valueError "max_depth не может быть отрицательным") := by
  have hcr : checkRequired config requiredKeys = .ok () :=
    (checkRequired_ok_iff config requiredKeys).2 hs
  unfold validate_config
  rw [hcr, checkMaxDepth_spec, checkRepoMode_spec]
  by_cases h1 : maxDepthOK config <;> simp [h1]

/-- C3: `validate_config` accepts exactly the objects with all six required
keys present and correctly typed, `max_depth ≥ 0` and `repo_mode` in
{remote, local}; a schema violation (missing key or wrong type) is rejected
with `KeyError`/`TypeError`, and a schema-valid object violating a
constraint is rejected with `ValueError`. -/
theorem C3_validate_characterization (config : Config) :
    (validate_config config = .ok () ↔
      (schemaOK config = true ∧ maxDepthOK config = true ∧ repoModeOK config = true)) ∧
    (schemaOK config = false →
      ∃ k, validate_config config = .error (.keyError k) ∨
           validate_config config = .error (.typeError k)) ∧
    (schemaOK config = true →
      (maxDepthOK config = false ∨ repoModeOK config = false) →
      ∃ m, validate_config config = .error (.valueError m)) := by
  by_cases hs : schemaOK config = true
  · have hv := validate_config_of_schemaOK config hs
    refine ⟨?_, ?_, ?_⟩
    · rw [hv]
      by_cases h1 : maxDepthOK config <;> by_cases h2 : repoModeOK config <;>
        simp [h1, h2, hs]
    · intro hfalse
      rw [hs] at hfalse
      exact absurd hfalse (by simp)
    · intro _ hbad
      rw [hv]
      rcases hbad with h1 | h2
      · refine ⟨"max_depth не может быть отрицательным", ?_⟩
        simp [h1]
      · by_cases h1 : maxDepthOK config
        · refine ⟨"repo_mode должен быть remote или local", ?_⟩
          simp [h1, h2]
        · refine ⟨"max_depth не может быть отрицательным", ?_⟩
          simp [h1]
  · have hs' : schemaOK config = false := by
      cases h : schemaOK config
      · rfl
      · exact absurd h hs
    have hall : requiredKeys.all (fun p => keyOK config p.1 p.2) = false := hs'
    obtain ⟨k, hk⟩ := checkRequired_fails config requiredKeys hall
    have hv : ∃ k, validate_config config = .error (.keyError k) ∨
        validate_config config = .error (.typeError k) := by
      refine ⟨k, ?_⟩
      unfold validate_config
      rcases hk with hk | hk <;> rw [hk] <;> [left; right] <;> rfl
    refine ⟨?_, fun _ => hv, ?_⟩
    · constructor
      · intro hok
        obtain ⟨k', hk'⟩ := hv
        rcases hk' with hk' | hk' <;> rw [hok] at hk' <;> exact absurd hk' (by simp)
      · rintro ⟨h1, _⟩
        exact absurd h1 hs
    · intro h1
      exact absurd h1 hs

/-- Witness for C3 at concrete configurations: a fully valid object is
accepted, an object missing `output_file` is rejected with a schema-kind
error, and an object with `repo_mode = "nuget"` is rejected with a
constraint-kind error. -/
theorem C3_witness :
    (validate_config
      [("package_name", PyVal.str "Newtonsoft.Json"),
       ("repository_url", PyVal.str "https://www.nuget.org/api/v2"),
       ("repo_mode", PyVal.str "remote"),
       ("output_file", PyVal.str "deps.png"),
       ("max_depth", PyVal.int 3),
       ("filter_substring", PyVal.str "")] = .ok ()) ∧
    (∃ k, validate_config
      [("package_name", PyVal.str "A"),
       ("repository_url", PyVal.str "u"),
       ("repo_mode", PyVal.str "remote"),
       ("max_depth", PyVal.int 3),
       ("filter_substring", PyVal.str "")] = .error (.keyError k) ∨
     validate_config
      [("package_name", PyVal.str "A"),
       ("repository_url", PyVal.str "u"),
       ("repo_mode", PyVal.str "remote"),
       ("max_depth", PyVal.int 3),
       ("filter_substring", PyVal.str "")] = .error (.typeError k)) ∧
    (∃ m, validate_config
      [("package_name", PyVal.str "A"),
       ("repository_url", PyVal.str "u"),
       ("repo_mode", PyVal.str "nuget"),
       ("output_file", PyVal.str "o"),
       ("max_depth", PyVal.int 3),
       ("filter_substring", PyVal.str "")] = .error (.valueError m)) :=
  ⟨(C3_validate_characterization _).1.mpr ⟨by decide, by decide, by decide⟩,
   (C3_validate_characterization _).2.1 (by decide),
   (C3_validate_characterization _).2.2 (by decide) (Or.inr (by decide))⟩

/-- C6: every validated configuration whose `repo_mode` is `"local"` makes
`main` raise the unsupported-mode error (`NotImplementedError`), never a
silent no-op or an empty result. -/
theorem C6_local_mode_fails (config : Config)
    (hv : validate_config config = .ok ())
    (hm : lookup config "repo_mode" = some (.str "local")) :
    mainDispatch config = .unsupportedModeError := by
  unfold mainDispatch
  rw [hv, hm]
  simp

/-- Witness for C6: a concrete validated local-mode configuration. -/
theorem C6_witness :
    mainDispatch
      [("package_name", PyVal.str "A"),
       ("repository_url", PyVal.str "u"),
       ("repo_mode", PyVal.str "local"),
       ("output_file", PyVal.str "o"),
       ("max_depth", PyVal.int 0),
       ("filter_substring", PyVal.str "x")] = .unsupportedModeError :=
  C6_local_mode_fails _ (by decide) (by decide)

/-- C9: `validate_config` does not check `package_version`: a remote-mode
configuration lacking it validates successfully, and the missing key only
surfaces in `main` when the fetch arguments are read, through the
configuration-error path (the `KeyError` handler). -/
theorem C9_package_version_not_validated :
    ∃ config : Config,
      lookup config "package_version" = Option.none ∧
      lookup config "repo_mode" = some (.str "remote") ∧
      validate_config config = .ok () ∧
      mainDispatch config = .configError := by
  refine ⟨[("package_name", PyVal.str "A"),
           ("repository_url", PyVal.str "http://example.org"),
           ("repo_mode", PyVal.str "remote"),
           ("output_file", PyVal.str "o"),
           ("max_depth", PyVal.int 1),
           ("filter_substring", PyVal.str "")], ?_, ?_, ?_, ?_⟩ <;> decide

/-- C10: the `isinstance` check for `max_depth` accepts a boolean, because
`bool` is a subclass of `int` in Python, so a configuration whose
`max_depth` is `True` passes validation. -/
theorem C10_bool_max_depth_accepted :
    isinstance (.bool true) .int = true ∧
    validate_config
      [("package_name", PyVal.str "A"),
       ("repository_url", PyVal.str "u"),
       ("repo_mode", PyVal.str "remote"),
       ("output_file", PyVal.str "o"),
       ("max_depth", PyVal.bool true),
       ("filter_substring", PyVal.str "")] = .ok () := by
  exact ⟨by decide, by decide⟩

/-! ## The dependency mini-language decoder (source lines 82-96)

Python `str.split` with a one-character separator keeps empty fields:
`"".split("|") = [""]` and `"a||b".split("|") = ["a", "", "b"]`.  We model
it character by character so that every decoding computes by reduction.
`dep.split(':', 2)` limits the split to at most three parts; the
`maxsplit` is modelled by rejoining the tail of the unlimited split. -/

/-- Python `s.split(sep)` for a single-character separator, over the
character list of the string. -/
def splitOnChar (sep : Char) : List Char → List (List Char)
  | [] => [[]]
  | c :: rest =>
    if c = sep then [] :: splitOnChar sep rest
    else
      match splitOnChar sep rest with
      | [] => [[c]]
      | group :: groups => (c :: group) :: groups

/-- Joining character lists with a colon, the inverse of an unlimited
colon split; used to model the `maxsplit = 2` bound. -/
def intercalateColon : List (List Char) → List Char
  | [] => []
  | [l] => l
  | l :: rest => l ++ ':' :: intercalateColon rest

/-- Python `dep.split(':', 2)`: at most three parts, the third part
absorbing any remaining colons. -/
def split_colon_2 (s : String) : List String :=
  match splitOnChar ':' s.data with
  | [] => []
  | [a] => [⟨a⟩]
  | [a, b] => [⟨a⟩, ⟨b⟩]
  | a :: b :: rest => [⟨a⟩, ⟨b⟩, ⟨intercalateColon rest⟩]

/-- One dependency record, the dict with keys name, version and target
built at source lines 90-94. -/
structure DepRecord where
  name : String
  version : String
  target : String
deriving DecidableEq

/-- The loop body for one `|`-separated segment (source lines 83-94):
fewer than two `:`-parts are skipped, a missing third part becomes an empty
target. -/
def decode_segment (dep : String) : Option DepRecord :=
  match split_colon_2 dep with
  | name :: version_req :: rest => some ⟨name, version_req, rest.headD ""⟩
  | _ => Option.none

/-- The whole decoding loop over `deps_text.split('|')` (source lines
82-96), appending records in segment order. -/
def decode_dependencies (deps_text : String) : List DepRecord :=
  ((splitOnChar '|' deps_text.data).map (fun l => String.mk l)).filterMap decode_segment

/-- C1: decoding `"A:1.0|B:2.0:net45|C"` yields exactly the two records
`(A, 1.0, "")` and `(B, 2.0, net45)` in source order; in general a segment
splitting into fewer than two parts is silently skipped, and a segment with
exactly two parts yields a record with an empty target framework. -/
theorem C1_decode_example_and_skip :
    decode_dependencies "A:1.0|B:2.0:net45|C" =
      [⟨"A", "1.0", ""⟩, ⟨"B", "2.0", "net45"⟩] ∧
    (∀ seg : String, (split_colon_2 seg).length < 2 →
      decode_segment seg = Option.none) ∧
    (∀ seg : String, (split_colon_2 seg).length = 2 →
      ∃ n v, decode_segment seg = some ⟨n, v, ""⟩) := by
  refine ⟨by decide, ?_, ?_⟩
  · intro seg h
    unfold decode_segment
    cases hs : split_colon_2 seg with
    | nil => rfl
    | cons a rest =>
      cases rest with
      | nil => rfl
      | cons b rest2 =>
        rw [hs] at h
        simp only [List.length_cons] at h
        omega
  · intro seg h
    unfold decode_segment
    cases hs : split_colon_2 seg with
    | nil => rw [hs] at h; simp at h
    | cons a rest =>
      cases rest with
      | nil => rw [hs] at h; simp at h
      | cons b rest2 =>
        cases rest2 with
        | nil => exact ⟨a, b, rfl⟩
        | cons c rest3 => rw [hs] at h; simp at h

/-- Witness for the universally quantified parts of C1 at concrete
segments:
`"C"` has one part and is skipped, `"A:1.0"` has two parts and gets an
empty target. -/
theorem C1_witness :
    decode_segment "C" = Option.none ∧
    ∃ n v, decode_segment "A:1.0" = some ⟨n, v, ""⟩ :=
  ⟨C1_decode_example_and_skip.2.1 "C" (by decide),
   C1_decode_example_and_skip.2.2 "A:1.0" (by decide)⟩

/-- C4: a segment splits into at most three parts, and decoding
`"X:1.0:net45:extra"` yields the single record whose target absorbs the
extra colon: `(X, 1.0, net45:extra)`. -/
theorem C4_colon_limited_split :
    (∀ seg : String, (split_colon_2 seg).length ≤ 3) ∧
    decode_dependencies "X:1.0:net45:extra" =
      [⟨"X", "1.0", "net45:extra"⟩] := by
  refine ⟨?_, by decide⟩
  intro seg
  unfold split_colon_2
  cases hs : splitOnChar ':' seg.data with
  | nil => simp
  | cons a rest =>
    cases rest with
    | nil => simp
    | cons b rest2 =>
      cases rest2 with
      | nil => simp
      | cons c rest3 => simp

/-! ## XML extraction (source lines 66-79)

An `ElementTree` element is a tag (carrying the Clark-notation namespace),
an optional text node and a list of children.  `root.findall` with the
path `.//d:Dependencies` and the namespace map `ns`
returns, in document order, every descendant of `root` (the root itself
excluded) whose expanded tag is
`{http://schemas.microsoft.com/ado/2007/08/dataservices}Dependencies`. -/

inductive XmlNode where
  | elem (tag : String) (text : Option String) (children : List XmlNode)

def XmlNode.tag : XmlNode → String
  | .elem t _ _ => t

def XmlNode.text : XmlNode → Option String
  | .elem _ t _ => t

def XmlNode.children : XmlNode → List XmlNode
  | .elem _ _ c => c

/-- The expanded tag that the path `.//d:Dependencies` resolves to under
the namespace map `ns` of source line 71. -/
def depTag : String :=
  "\x7bhttp://schemas.microsoft.com/ado/2007/08/dataservices\x7dDependencies"

mutual

/-- The `root.findall` call of source line 73: matching descendants of
the node, in document (preorder) order. -/
def findall_deps : XmlNode → List XmlNode
  | .elem _ _ children => findall_deps_list children

def findall_deps_list : List XmlNode → List XmlNode
  | [] => []
  | c :: rest =>
    (if c.tag = depTag then [c] else []) ++ findall_deps c ++ findall_deps_list rest

end

/-- The characters stripped by Python `str.strip()` with no argument
(ASCII whitespace). -/
def isPySpace (c : Char) : Bool :=
  c = ' ' || c = '\t' || c = '\n' || c = '\r' || c.toNat = 11 || c.toNat = 12

/-- Python `not deps_text or not deps_text.strip()` for `deps_text`
taken from `element.text` (source line 78): true when the text is absent,
empty, or entirely whitespace. -/
def blankText : Option String → Bool
  | Option.none => true
  | some t => t.data.all isPySpace

/-- The post-parse portion of `fetch_package_dependencies` (source lines
73-96): locate the `Dependencies` elements, return `[]` when none is found
or the first one has no usable text, otherwise decode the text of the
first one. -/
def extract_dependencies (root : XmlNode) : List DepRecord :=
  match findall_deps root with
  | [] => []
  | e :: _ =>
    if blankText e.text then []
    else decode_dependencies ((e.text).getD "")

/-- C5: when no `Dependencies` element occurs anywhere in the tree, or the
first matched one has no text or only-whitespace text, the extraction
returns the empty list (a normal outcome, not an error). -/
theorem C5_empty_outcomes (root : XmlNode) :
    (findall_deps root = [] → extract_dependencies root = []) ∧
    (∀ e rest, findall_deps root = e :: rest →
      blankText e.text = true →
      extract_dependencies root = []) := by
  constructor
  · intro h
    unfold extract_dependencies
    rw [h]
  · intro e rest h hblank
    unfold extract_dependencies
    rw [h]
    simp [hblank]

/-- Witness for C5: a document with no `Dependencies` element at all, and
one whose only `Dependencies` element carries whitespace text. -/
theorem C5_witness :
    extract_dependencies (.elem "feed" Option.none [.elem "title" (some "x") []]) = [] ∧
    extract_dependencies (.elem "feed" Option.none
      [.elem depTag (some "  \n ") []]) = [] := by
  constructor
  · exact (C5_empty_outcomes _).1
      (by simp [findall_deps, findall_deps_list, XmlNode.tag, depTag])
  · exact (C5_empty_outcomes _).2 (.elem depTag (some "  \n ") []) []
      (by simp [findall_deps, findall_deps_list, XmlNode.tag, depTag]) (by decide)

/-- C8: the extraction depends only on the first matched `Dependencies`
element: two documents whose `findall` results have the same head produce
the same records, so the content of every later `Dependencies` element has
no effect. -/
theorem C8_only_first_match_used (root1 root2 : XmlNode)
    (h : (findall_deps root1).head? = (findall_deps root2).head?) :
    extract_dependencies root1 = extract_dependencies root2 := by
  unfold extract_dependencies
  cases h1 : findall_deps root1 with
  | nil =>
    cases h2 : findall_deps root2 with
    | nil => rfl
    | cons e2 r2 => rw [h1, h2] at h; simp at h
  | cons e1 r1 =>
    cases h2 : findall_deps root2 with
    | nil => rw [h1, h2] at h; simp at h
    | cons e2 r2 =>
      rw [h1, h2] at h
      simp only [List.head?_cons, Option.some.injEq] at h
      rw [h]

/-- Witness for C8: two feeds sharing the same first `Dependencies`
element but with different second ones decode identically. -/
theorem C8_witness :
    extract_dependencies
      (.elem "feed" Option.none
        [.elem depTag (some "A:1.0") [], .elem depTag (some "B:2.0:net45") []]) =
    extract_dependencies
      (.elem "feed" Option.none
        [.elem depTag (some "A:1.0") [], .elem depTag (some "C:9.9|D:1.1") []]) :=
  C8_only_first_match_used _ _
    (by simp [findall_deps, findall_deps_list, XmlNode.tag, depTag])

/-! ## Query-URL construction (source lines 51-57)

Python `urllib.parse.quote` with an empty `safe` set operates on the
UTF-8 bytes of its argument: a
byte that is an ASCII letter, digit, or one of `_ . - ~` passes through,
every other byte becomes `%XX` with uppercase hex digits.  We model the
construction at the byte level (strings as lists of byte values), which is
exactly the granularity `quote` works at. -/

/-- The characters `urllib.parse.quote` never escapes
(ASCII letters, digits, and `_ . - ~`). -/
def isAlwaysSafe (b : Nat) : Bool :=
  (decide (65 ≤ b) && decide (b ≤ 90)) ||
  (decide (97 ≤ b) && decide (b ≤ 122)) ||
  (decide (48 ≤ b) && decide (b ≤ 57)) ||
  b == 95 || b == 46 || b == 45 || b == 126

/-- Uppercase hexadecimal digit of a nibble. -/
def hexDigit (n : Nat) : Nat := if n < 10 then 48 + n else 55 + n

/-- Encoding of one byte: pass through when safe, else `%XX`
(`%` is byte 37). -/
def quoteByte (b : Nat) : List Nat :=
  if isAlwaysSafe b then [b] else [37, hexDigit (b / 16), hexDigit (b % 16)]

/-- Python `urllib.parse.quote` with an empty `safe` set, over a byte
string. -/
def quote : List Nat → List Nat
  | [] => []
  | b :: rest => quoteByte b ++ quote rest

/-- Numeric value of an uppercase hexadecimal digit byte. -/
def hexVal (c : Nat) : Nat := if c ≤ 57 then c - 48 else c - 55

/-- Percent-decoding, the specification-side inverse used to state that
encoding is lossless: a `%XX` triple decodes to its byte, any other byte
passes through. -/
def unquote : List Nat → List Nat
  | [] => []
  | 37 :: h :: l :: rest2 => (16 * hexVal h + hexVal l) :: unquote rest2
  | b :: rest => b :: unquote rest

/-- Byte values of an ASCII string literal. -/
def ascii (s : String) : List Nat := s.data.map Char.toNat

/-- The filter predicate of source line 55,
`Id eq ... and Version eq ...` with each quoted argument wrapped in
apostrophes, as a byte string; byte 39 is the apostrophe delimiting the
literals. -/
def filterExpr (name version : List Nat) : List Nat :=
  ascii "Id eq " ++ 39 ::
    (quote name ++ 39 ::
      (ascii " and Version eq " ++ 39 ::
        (quote version ++ [39])))

/-- Python `base_url.rstrip('/')` (source line 57): removes EVERY trailing
slash (byte 47), not just one. -/
def rstripSlash : List Nat → List Nat
  | [] => []
  | b :: rest =>
    match rstripSlash rest with
    | [] => if b = 47 then [] else [b]
    | r => b :: r

/-- The full query URL of source line 57:
`{base_url.rstrip('/')}/Packages()?$filter={quote(filter)}`. -/
def buildUrl (base name version : List Nat) : List Nat :=
  rstripSlash base ++ ascii "/Packages()?$filter=" ++ quote (filterExpr name version)

/-! ### Properties of the percent-encoding -/

theorem isAlwaysSafe_ne_37 {b : Nat} (h : isAlwaysSafe b = true) : b ≠ 37 := by
  simp [isAlwaysSafe] at h
  omega

theorem unquote_cons_ne_37 (b : Nat) (l : List Nat) (h : b ≠ 37) :
    unquote (b :: l) = b :: unquote l := by
  rw [unquote.eq_def]
  split
  · simp_all
  · simp_all
  · simp_all

theorem hexVal_hexDigit (n : Nat) (h : n < 16) : hexVal (hexDigit n) = n := by
  unfold hexVal hexDigit
  split <;> split <;> omega

theorem hexDigit_ne_39 (n : Nat) : hexDigit n ≠ 39 := by
  unfold hexDigit
  split <;> omega

theorem hexDigit_lt_256 (n : Nat) (h : n < 16) : hexDigit n < 256 := by
  unfold hexDigit
  split <;> omega

theorem unquote_quote (bs : List Nat) (h : ∀ b ∈ bs, b < 256) :
    unquote (quote bs) = bs := by
  induction bs with
  | nil => rfl
  | cons b t ih =>
    have hb : b < 256 := h b (by simp)
    have ht : ∀ x ∈ t, x < 256 := fun x hx => h x (by simp [hx])
    by_cases hs : isAlwaysSafe b
    · rw [show quote (b :: t) = b :: quote t by simp [quote, quoteByte, hs]]
      rw [unquote_cons_ne_37 b (quote t) (isAlwaysSafe_ne_37 hs), ih ht]
    · rw [show quote (b :: t) =
        37 :: hexDigit (b / 16) :: hexDigit (b % 16) :: quote t by
          simp [quote, quoteByte, hs]]
      rw [show unquote (37 :: hexDigit (b / 16) :: hexDigit (b % 16) :: quote t) =
        (16 * hexVal (hexDigit (b / 16)) + hexVal (hexDigit (b % 16))) ::
          unquote (quote t) from rfl]
      have h1 : hexVal (hexDigit (b / 16)) = b / 16 := hexVal_hexDigit _ (by omega)
      have h2 : hexVal (hexDigit (b % 16)) = b % 16 := hexVal_hexDigit _ (by omega)
      rw [h1, h2, ih ht]
      have h3 : 16 * (b / 16) + b % 16 = b := by omega
      rw [h3]

theorem quote_inj {a b : List Nat} (ha : ∀ x ∈ a, x < 256) (hb : ∀ x ∈ b, x < 256)
    (h : quote a = quote b) : a = b := by
  have := congrArg unquote h
  rwa [unquote_quote a ha, unquote_quote b hb] at this

theorem not_mem_39_quote (bs : List Nat) : 39 ∉ quote bs := by
  induction bs with
  | nil => simp [quote]
  | cons b t ih =>
    intro hmem
    simp only [quote] at hmem
    rcases List.mem_append.1 hmem with hmem | hmem
    · unfold quoteByte at hmem
      by_cases hs : isAlwaysSafe b
      · rw [if_pos hs] at hmem
        simp at hmem
        subst hmem
        simp [isAlwaysSafe] at hs
      · rw [if_neg hs] at hmem
        rcases List.mem_cons.1 hmem with h | hmem2
        · omega
        rcases List.mem_cons.1 hmem2 with h | hmem3
        · exact hexDigit_ne_39 _ h.symm
        rcases List.mem_cons.1 hmem3 with h | hmem4
        · exact hexDigit_ne_39 _ h.symm
        · simp at hmem4
    · exact ih hmem

theorem quote_mem_lt_256 (bs : List Nat) (h : ∀ b ∈ bs, b < 256) :
    ∀ c ∈ quote bs, c < 256 := by
  induction bs with
  | nil => simp [quote]
  | cons b t ih =>
    intro c hc
    have hb : b < 256 := h b (by simp)
    have ht : ∀ x ∈ t, x < 256 := fun x hx => h x (by simp [hx])
    simp only [quote] at hc
    rcases List.mem_append.1 hc with hc | hc
    · unfold quoteByte at hc
      by_cases hs : isAlwaysSafe b
      · rw [if_pos hs] at hc
        simp at hc
        omega
      · rw [if_neg hs] at hc
        simp at hc
        rcases hc with h' | h' | h'
        · omega
        · rw [h']
          exact hexDigit_lt_256 _ (by omega)
        · rw [h']
          exact hexDigit_lt_256 _ (by omega)
    · exact ih ht c hc

/-- Cancellation around a separator absent from both left parts. -/
theorem append_cons_inj {x : Nat} : ∀ {a b t1 t2 : List Nat},
    x ∉ a → x ∉ b → a ++ x :: t1 = b ++ x :: t2 → a = b ∧ t1 = t2 := by
  intro a
  induction a with
  | nil =>
    intro b t1 t2 _ hb h
    cases b with
    | nil => simpa using h
    | cons y b' =>
      simp only [List.nil_append, List.cons_append, List.cons.injEq] at h
      exact absurd (h.1 ▸ List.mem_cons_self y b') hb
  | cons z a' ih =>
    intro b t1 t2 ha hb h
    cases b with
    | nil =>
      simp only [List.cons_append, List.nil_append, List.cons.injEq] at h
      exact absurd (h.1 ▸ List.mem_cons_self z a') ha
    | cons y b' =>
      simp only [List.cons_append, List.cons.injEq] at h
      obtain ⟨hzy, htail⟩ := h
      have ha' : x ∉ a' := fun hx => ha (List.mem_cons_of_mem z hx)
      have hb' : x ∉ b' := fun hx => hb (List.mem_cons_of_mem y hx)
      obtain ⟨h1, h2⟩ := ih ha' hb' htail
      exact ⟨by rw [hzy, h1], h2⟩

theorem filterExpr_mem_lt_256 (name version : List Nat)
    (hn : ∀ b ∈ name, b < 256) (hv : ∀ b ∈ version, b < 256) :
    ∀ c ∈ filterExpr name version, c < 256 := by
  intro c hc
  unfold filterExpr at hc
  simp only [List.mem_append, List.mem_cons, List.mem_singleton] at hc
  rcases hc with hc | hc | hc | hc | hc | hc | hc
  · have hall : ∀ x ∈ ascii "Id eq ", x < 256 := by decide
    exact hall c hc
  · omega
  · exact quote_mem_lt_256 name hn c hc
  · omega
  · have hall : ∀ x ∈ ascii " and Version eq ", x < 256 := by decide
    exact hall c hc
  · omega
  · rcases hc with hc | hc
    · exact quote_mem_lt_256 version hv c hc
    · simp at hc
      omega

theorem filterExpr_inj {n1 v1 n2 v2 : List Nat}
    (hn1 : ∀ b ∈ n1, b < 256) (hv1 : ∀ b ∈ v1, b < 256)
    (hn2 : ∀ b ∈ n2, b < 256) (hv2 : ∀ b ∈ v2, b < 256)
    (h : filterExpr n1 v1 = filterExpr n2 v2) : n1 = n2 ∧ v1 = v2 := by
  unfold filterExpr at h
  have h' := List.append_cancel_left h
  simp only [List.cons.injEq, true_and] at h'
  obtain ⟨hq, ht⟩ := append_cons_inj (not_mem_39_quote n1) (not_mem_39_quote n2) h'
  have hn : n1 = n2 := quote_inj hn1 hn2 hq
  have ht' := List.append_cancel_left ht
  simp only [List.cons.injEq, true_and] at ht'
  have hv : v1 = v2 := by
    have hq' : quote v1 = quote v2 := by simpa using ht'
    exact quote_inj hv1 hv2 hq'
  exact ⟨hn, hv⟩

/-! ### Properties of the trailing-slash strip -/

theorem rstripSlash_replicate (k : Nat) :
    rstripSlash (List.replicate k 47) = [] := by
  induction k with
  | zero => rfl
  | succ n ih => simp [List.replicate_succ, rstripSlash, ih]

theorem rstripSlash_append_of_strip_nil (l1 l2 : List Nat)
    (h : rstripSlash l2 = []) :
    rstripSlash (l1 ++ l2) = rstripSlash l1 := by
  induction l1 with
  | nil => simpa using h
  | cons b t ih => simp [rstripSlash, ih]

theorem rstripSlash_of_no_trailing (base : List Nat)
    (h : base.getLast? ≠ some 47) :
    rstripSlash base = base := by
  induction base with
  | nil => rfl
  | cons b t ih =>
    cases t with
    | nil =>
      have hb : b ≠ 47 := by
        intro hb
        exact h (by simp [hb, List.getLast?])
      simp [rstripSlash, hb]
    | cons c t' =>
      have ht : (c :: t').getLast? ≠ some 47 := by
        intro hc
        apply h
        rwa [List.getLast?_cons_cons]
      rw [show rstripSlash (b :: c :: t') =
        match rstripSlash (c :: t') with
        | [] => if b = 47 then [] else [b]
        | r => b :: r from rfl]
      rw [ih ht]

/-- C2 as stated is false: `rstrip('/')` removes EVERY trailing slash, so a
base URL ending in two slashes does not keep one of them. -/
theorem C2_counterexample :
    buildUrl (ascii "http://h//") (ascii "A") (ascii "1.0") ≠
      ascii "http://h/" ++ ascii "/Packages()?$filter=" ++
        quote (filterExpr (ascii "A") (ascii "1.0")) := by decide

/-- C2 amended: the query URL is built by stripping ALL trailing slashes
from the base URL (however many there are), then appending the fixed
`/Packages()?$filter=` path and the doubly-percent-encoded filter. -/
theorem C2_amended_all_slashes_stripped (base name version : List Nat) (k : Nat)
    (h : base.getLast? ≠ some 47) :
    buildUrl (base ++ List.replicate k 47) name version =
      base ++ ascii "/Packages()?$filter=" ++ quote (filterExpr name version) := by
  unfold buildUrl
  rw [rstripSlash_append_of_strip_nil base (List.replicate k 47) (rstripSlash_replicate k),
      rstripSlash_of_no_trailing base h]

/-- Witness for the amended C2: three trailing slashes are all removed. -/
theorem C2_witness :
    buildUrl (ascii "http://h" ++ List.replicate 3 47) (ascii "A") (ascii "1.0") =
      ascii "http://h" ++ ascii "/Packages()?$filter=" ++
        quote (filterExpr (ascii "A") (ascii "1.0")) :=
  C2_amended_all_slashes_stripped (ascii "http://h") (ascii "A") (ascii "1.0") 3 (by decide)

/-- C7: the two argument strings are percent-encoded individually and the
encoding is lossless — percent-decoding recovers them exactly — and the
URL construction is injective on (package_name, package_version) pairs
(over byte strings, covering space, apostrophe, ampersand, slash). -/
theorem C7_query_injective (base n1 v1 n2 v2 : List Nat)
    (hn1 : ∀ b ∈ n1, b < 256) (hv1 : ∀ b ∈ v1, b < 256)
    (hn2 : ∀ b ∈ n2, b < 256) (hv2 : ∀ b ∈ v2, b < 256) :
    (unquote (quote n1) = n1 ∧ unquote (quote v1) = v1) ∧
    (buildUrl base n1 v1 = buildUrl base n2 v2 → n1 = n2 ∧ v1 = v2) := by
  refine ⟨⟨unquote_quote n1 hn1, unquote_quote v1 hv1⟩, ?_⟩
  intro h
  unfold buildUrl at h
  rw [List.append_assoc, List.append_assoc] at h
  have h1 := List.append_cancel_left h
  have h2 := List.append_cancel_left h1
  have hfe : filterExpr n1 v1 = filterExpr n2 v2 :=
    quote_inj (filterExpr_mem_lt_256 n1 v1 hn1 hv1)
      (filterExpr_mem_lt_256 n2 v2 hn2 hv2) h2
  exact filterExpr_inj hn1 hv1 hn2 hv2 hfe

/-- Witness for C7 at concrete bytes: a name made of the bytes for
letter a, space, apostrophe, ampersand and slash, and the version `1.0`,
round-trip through the encoding, and equal URLs force equal pairs. -/
theorem C7_witness :
    (unquote (quote [97, 32, 39, 38, 47]) = [97, 32, 39, 38, 47] ∧
     unquote (quote [49, 46, 48]) = [49, 46, 48]) ∧
    (buildUrl (ascii "http://h") [97, 32, 39, 38, 47] [49, 46, 48] =
       buildUrl (ascii "http://h") [98] [50] →
     [97, 32, 39, 38, 47] = [98] ∧ [49, 46, 48] = [50]) :=
  C7_query_injective (ascii "http://h") [97, 32, 39, 38, 47] [49, 46, 48] [98] [50]
    (by decide) (by decide) (by decide) (by decide)

end Konfigur2
